import Mathlib

/-!
# Verification of `praat_formants_python/_formants.py`

A shallow embedding of the single source module of the repository
`mwv/praat_formants_python`, together with theorems settling the claims
about it.

Modelling conventions:

* Python float values that occur in this program are either finite numbers
  or the special values `nan`, `inf`, `-inf`.  No arithmetic is ever
  performed on them (they are only parsed, stored, compared and returned),
  so finite values are represented exactly by rationals (`ℚ`) and the
  special values by dedicated constructors (`PyNum`).  Comparisons between
  finite IEEE values coincide with comparisons of the rationals they
  denote, so the order-theoretic behaviour of `bisect` is captured
  faithfully.
* A numpy 2-D array of rows `[time, f1, f2, f3]` (the FormantTable of the
  data model) is a `List Row`.  Per the data model the `time` entry is a
  finite float, while `f1`..`f3` may be NaN; hence `Row.time : ℚ` and the
  formant entries are `PyNum`.
* The raw parse result of the captured stdout (before it is viewed as a
  FormantTable) is a `List (List PyNum)`: numpy happily builds a ragged
  object array, so row lengths are not normalised by the code.
* Exceptions are modelled with `Except` / explicit outcome types; the
  `warnings.warn` side effect is modelled by returning the number of
  warnings emitted by the call.
-/

/-- A Python float value as it occurs in this program: a finite value
(represented exactly as a rational), NaN, or a signed infinity. -/
inductive PyNum where
  | val (q : ℚ)
  | nan
  | inf
  | ninf
deriving DecidableEq

/-- Negation of a Python float (used for a leading `-` sign in `float(s)`);
note `float("-nan")` is still NaN. -/
def PyNum.neg : PyNum → PyNum
  | .val q => .val (-q)
  | .nan => .nan
  | .inf => .ninf
  | .ninf => .inf

/-- `np.isnan` on a single value. -/
def PyNum.isNaN : PyNum → Bool
  | .nan => true
  | _ => false

/-- The six whitespace characters recognised by C `isspace` (and hence by
Python 2 `str.rstrip()` with no argument and by `float(s)`):
space, tab, newline, vertical tab, form feed, carriage return. -/
def pyIsSpace (c : Char) : Bool :=
  c = ' ' || c = '\t' || c = '\n' || c = '\x0b' || c = '\x0c' || c = '\r'

/-- Python 2 `str.rstrip()`: remove trailing whitespace characters. -/
def pyRstrip (s : String) : String :=
  String.mk ((s.data.reverse.dropWhile pyIsSpace).reverse)

/-- Split a character list at every occurrence of the separator, keeping
empty segments, as Python `str.split(sep)` does for a one-character
separator (`CHAR_TAB` and `CHAR_NL` are the only separators used by this
program): the empty string yields `[""]`, a lone separator `["", ""]`. -/
def splitOnChar (sep : Char) : List Char → List (List Char)
  | [] => [[]]
  | c :: rest =>
      let r := splitOnChar sep rest
      if c = sep then [] :: r
      else
        match r with
        | [] => [[c]]
        | h :: t => (c :: h) :: t

/-- Python `s.split(sep)` for a one-character separator. -/
def pySplit (s : String) (sep : Char) : List String :=
  (splitOnChar sep s.data).map String.mk

/-- Value of a list of decimal digit characters read left to right. -/
def digitsVal (l : List Char) : Nat :=
  l.foldl (fun n c => 10 * n + (c.toNat - 48)) 0

/-- Parse the exponent part of a float literal (after the `e`/`E`):
an optional sign followed by a non-empty digit string. -/
def parseExpPart (l : List Char) : Option Int :=
  match l with
  | [] => none
  | '+' :: rest =>
      if rest ≠ [] ∧ rest.all Char.isDigit then some (digitsVal rest : Int) else none
  | '-' :: rest =>
      if rest ≠ [] ∧ rest.all Char.isDigit then some (-(digitsVal rest : Int)) else none
  | _ =>
      if l.all Char.isDigit then some (digitsVal l : Int) else none

/-- Scale an exact fraction (numerator, positive denominator) by `10 ^ e`
for an integer exponent `e`. -/
def applyExp (p : Int × Nat) : Int → Int × Nat
  | .ofNat e => (p.1 * (10 : Int) ^ e, p.2)
  | .negSucc e => (p.1, p.2 * 10 ^ (e + 1))

/-- Parse the mantissa of a float literal: digits with an optional decimal
point, at least one digit overall (`"5."`, `".5"`, `"5.5"`, `"5"`).
The value is returned as an exact fraction (numerator, denominator): the
digits before the point, plus the digits after it over the matching power
of ten. -/
def parseMantissa (l : List Char) : Option (Int × Nat) :=
  let ip := l.takeWhile Char.isDigit
  let rest := l.dropWhile Char.isDigit
  match rest with
  | [] => if ip = [] then none else some ((digitsVal ip : Int), 1)
  | '.' :: fp =>
      if fp.all Char.isDigit ∧ (ip ≠ [] ∨ fp ≠ []) then
        some ((digitsVal ip : Int) * (10 : Int) ^ fp.length + (digitsVal fp : Int),
          10 ^ fp.length)
      else none
  | _ => none

/-- Parse an unsigned Python float literal: `inf`/`infinity`/`nan`
(case-insensitive) or a mantissa with optional exponent. -/
def pyFloatCore (l : List Char) : Option PyNum :=
  let lower := l.map Char.toLower
  if lower = "inf".data ∨ lower = "infinity".data then some .inf
  else if lower = "nan".data then some .nan
  else
    let m := l.takeWhile (fun c => c ≠ 'e' ∧ c ≠ 'E')
    let r := l.dropWhile (fun c => c ≠ 'e' ∧ c ≠ 'E')
    match r with
    | [] => (parseMantissa m).map (fun p => PyNum.val (mkRat p.1 p.2))
    | _ :: er =>
        match parseMantissa m, parseExpPart er with
        | some p, some e =>
            let q := applyExp p e
            some (.val (mkRat q.1 q.2))
        | _, _ => none

/-- Python 2 `float(s)`: strip surrounding whitespace, handle an optional
sign, then parse the body; `none` models the `ValueError` raised on an
unparsable string (such as the `--undefined--` marker printed by praat). -/
def pyFloat (s : String) : Option PyNum :=
  let l := ((s.data.dropWhile pyIsSpace).reverse.dropWhile pyIsSpace).reverse
  match l with
  | '+' :: rest => pyFloatCore rest
  | '-' :: rest => (pyFloatCore rest).map PyNum.neg
  | _ => pyFloatCore l

/-- The local helper `_float` of `file2formants`:
`try: return float(s) except ValueError: return np.nan`. -/
def _float (s : String) : PyNum :=
  (pyFloat s).getD .nan

/-- One record of praat output, as parsed by `file2formants`:
`map(_float, x.rstrip().split(CHAR_TAB)[:4])`. -/
def parseRecord (x : String) : List PyNum :=
  ((pySplit (pyRstrip x) '\t').take 4).map _float

/-- The parsing step of `file2formants`: split the captured stdout on
newlines, discard the first record (header) and the last (the empty string
after the final newline) — Python `res.split(CHAR_NL)[1:-1]` — and parse
each remaining record with `parseRecord`. -/
def parseFormants (res : String) : List (List PyNum) :=
  (((pySplit res '\n').drop 1).dropLast).map parseRecord

/-- The parsing procedure exactly as the specification words it (for
comparison with `parseFormants`): split each remaining record on tab, take
the first 4 fields and convert each with `_float` — with no right-strip of
the record. -/
def specParseFormants (res : String) : List (List PyNum) :=
  (((pySplit res '\n').drop 1).dropLast).map
    (fun x => ((pySplit x '\t').take 4).map _float)

/-- Equality of `Except` values is decidable when it is on both sides. -/
instance {ε α : Type} [DecidableEq ε] [DecidableEq α] : DecidableEq (Except ε α) :=
  fun x y =>
    match x, y with
    | .ok a, .ok b =>
        if h : a = b then isTrue (by rw [h])
        else isFalse (fun hc => h (Except.ok.inj hc))
    | .error a, .error b =>
        if h : a = b then isTrue (by rw [h])
        else isFalse (fun hc => h (Except.error.inj hc))
    | .ok _, .error _ => isFalse (fun hc => Except.noConfusion hc)
    | .error _, .ok _ => isFalse (fun hc => Except.noConfusion hc)

/-! ## The FormantTable data model and the two query helpers -/

/-- A row of a FormantTable: `[time, f1, f2, f3]`.  Per the data model the
time entry is a finite float; the formant entries may be NaN. -/
structure Row where
  time : ℚ
  f1 : PyNum
  f2 : PyNum
  f3 : PyNum
deriving DecidableEq

/-- An extracted FormantTable: an ordered sequence of rows. -/
abbrev FormantTable := List Row

/-- The invariant of the data model: the time column is non-decreasing. -/
def TimeSorted (tbl : FormantTable) : Prop :=
  List.Pairwise (fun p q : Row => p.time ≤ q.time) tbl

instance : DecidablePred TimeSorted := fun tbl =>
  inferInstanceAs (Decidable (List.Pairwise _ tbl))

/-- `np.any(np.isnan(row))` for a FormantTable row: the time entry of a
well-formed table is a finite float, so only the formant entries can be
NaN. -/
def rowHasNaN (r : Row) : Bool :=
  r.f1.isNaN || r.f2.isNaN || r.f3.isNaN

/-- `formants_array[:, 0]`.  `np.array` applied to an empty list of rows
yields a 1-D array of shape `(0,)`, on which the two-index expression
`[:, 0]` raises `IndexError`; on a table with rows it yields the time
column. -/
def timeColumn (tbl : FormantTable) : Option (List ℚ) :=
  if tbl.isEmpty then none else some (tbl.map Row.time)

/-- The loop body of CPython `bisect.bisect_left(a, x, lo, hi)`:
while `lo < hi`, take `mid = (lo+hi)//2`; if `a[mid] < x` set
`lo = mid+1` else `hi = mid`.  The loop shrinks `hi - lo` by at least one
per iteration, so running it with `fuel ≥ hi - lo` computes the exact
result of the unbounded loop. -/
def bisectLeftAux (a : List ℚ) (x : ℚ) : Nat → Nat → Nat → Nat
  | 0, lo, _ => lo
  | fuel + 1, lo, hi =>
      if lo < hi then
        if a.getD ((lo + hi) / 2) 0 < x then bisectLeftAux a x fuel ((lo + hi) / 2 + 1) hi
        else bisectLeftAux a x fuel lo ((lo + hi) / 2)
      else lo

/-- CPython `bisect.bisect_left(a, x)` over the whole list. -/
def bisect_left (a : List ℚ) (x : ℚ) : Nat :=
  bisectLeftAux a x a.length 0 a.length

/-- The loop body of CPython `bisect.bisect_right(a, x, lo, hi)`:
while `lo < hi`, take `mid = (lo+hi)//2`; if `x < a[mid]` set `hi = mid`
else `lo = mid+1`. -/
def bisectRightAux (a : List ℚ) (x : ℚ) : Nat → Nat → Nat → Nat
  | 0, lo, _ => lo
  | fuel + 1, lo, hi =>
      if lo < hi then
        if x < a.getD ((lo + hi) / 2) 0 then bisectRightAux a x fuel lo ((lo + hi) / 2)
        else bisectRightAux a x fuel ((lo + hi) / 2 + 1) hi
      else lo

/-- CPython `bisect.bisect_right(a, x)` over the whole list. -/
def bisect_right (a : List ℚ) (x : ℚ) : Nat :=
  bisectRightAux a x a.length 0 a.length

/-- The error raised by the query helpers:
`ValueError("time out of range for filelength")`, the RangeError of the
specification.  It is raised when an `IndexError` escapes the indexing
expressions inside the `try` block. -/
inductive QueryError where
  | rangeError
deriving DecidableEq

/-- `formants_at_time(filename, time, ...)` after the table has been
obtained from `file2formants`:
`res = formants_array[bisect_left(formants_array[:, 0], time), 1:]`,
with `IndexError` converted to the range `ValueError`; then
`warnings.warn("undefined formant found")` if any entry of `res` is NaN.
The returned `Nat` counts the warnings emitted by the call.  The time
entry is dropped by the `1:` slice, so the result is the triple
`(f1, f2, f3)`. -/
def formants_at_time (tbl : FormantTable) (time : ℚ) :
    Except QueryError ((PyNum × PyNum × PyNum) × Nat) :=
  match timeColumn tbl with
  | none => .error .rangeError
  | some times =>
      match tbl.get? (bisect_left times time) with
      | none => .error .rangeError
      | some r => .ok ((r.f1, r.f2, r.f3), if rowHasNaN r then 1 else 0)

/-- `formants_at_interval(filename, start, end, ...)` after the table has
been obtained from `file2formants`:
`start_idx = bisect_left(times, start)`, `end_idx = bisect_right(times, end)`,
`res = formants_array[start_idx:end_idx]` (a slice never raises), with
`IndexError` converted to the range `ValueError`; then one warning if any
entry of the slice is NaN.  All four columns are kept. -/
def formants_at_interval (tbl : FormantTable) (start «end» : ℚ) :
    Except QueryError (FormantTable × Nat) :=
  match timeColumn tbl with
  | none => .error .rangeError
  | some times =>
      let start_idx := bisect_left times start
      let end_idx := bisect_right times «end»
      let res := (tbl.take end_idx).drop start_idx
      .ok (res, if res.any rowHasNaN then 1 else 0)

/-! ## Subprocess invocation (`run_praat`) -/

/-- Possible outcomes of `run_praat`. `attributeError` stands for a Python
`AttributeError` escaping the function. -/
inductive PraatOutcome where
  | ok (stdout : String)
  | praatError (msg : String)
  | attributeError
deriving DecidableEq

/-- `run_praat`, as a function of the behaviour of the spawned process:
`stdout, stderr = p.communicate()` returns the two captured streams as
strings; then `if p.returncode: raise PraatError(CONCAT(stderr.readlines()))
else: return stdout`.  On the non-zero branch the expression
`stderr.readlines()` is evaluated first, and a Python 2 `str` has no
`readlines` method, so an `AttributeError` is raised before any
`PraatError` can be constructed. -/
def run_praat (returncode : Int) (stdout stderr : String) : PraatOutcome :=
  if returncode ≠ 0 then
    PraatOutcome.attributeError
  else
    PraatOutcome.ok stdout

/-! ## Memoized extraction (`file2formants`, `clear_formant_cache`) -/

/-- The memoization key: `(filename, maxformant, winlen, preemph)`.
The numeric parameters are Python numbers compared by value (`5500` and
`5500.0` are the same dict key), which `ℚ` models exactly. -/
abbrev CacheKey := String × ℚ × ℚ × ℚ

/-- The raw table type produced by the parsing step. -/
abbrev PyTable := List (List PyNum)

/-- The process-wide state touched by `file2formants`: the module-level
dict `_fmt_cache` (modelled as an association list with the most recent
insertion first, which has the same lookup behaviour), plus a counter of
how many times the external tool has been invoked (to express "does not
invoke praat again"). -/
structure ExtractState where
  cache : List (CacheKey × PyTable)
  calls : Nat
deriving DecidableEq

/-- `file2formants(filename, maxformant, winlen, preemph, memoize_call)`.
The external tool is abstracted as a deterministic `oracle` mapping the
argument tuple to the captured stdout of a successful run (the script path
passed as first argument is a process-wide constant, so it is not part of
the key).  With memoization: if the key is absent, run praat, parse, and
store; return the cached entry.  Without: always run praat and parse,
leaving the cache untouched. -/
def file2formants (oracle : CacheKey → String) (key : CacheKey)
    (memoize_call : Bool) (s : ExtractState) : PyTable × ExtractState :=
  if memoize_call then
    match s.cache.lookup key with
    | some tbl => (tbl, s)
    | none =>
        let res := parseFormants (oracle key)
        (res, ⟨(key, res) :: s.cache, s.calls + 1⟩)
  else
    (parseFormants (oracle key), ⟨s.cache, s.calls + 1⟩)

/-- `clear_formant_cache()`: rebind the module-level cache to `{}`. -/
def clear_formant_cache (s : ExtractState) : ExtractState :=
  { s with cache := [] }

/-! ## Correctness of the embedded bisect loops

The specification describes the two searches by their insertion-point
semantics on a sorted list; the following predicates state exactly those
semantics, and the lemmas show the embedded CPython loops compute them. -/

/-- `r` is the left insertion point of `x` in `a`: every element before
index `r` is `< x` and every element from index `r` on is `≥ x`.  On a
sorted list this says `r` is the index of the first element `≥ x`
(or `a.length` if there is none). -/
def IsLB (a : List ℚ) (x : ℚ) (r : Nat) : Prop :=
  r ≤ a.length ∧ (∀ k, k < r → a.getD k 0 < x) ∧
    (∀ k, r ≤ k → k < a.length → x ≤ a.getD k 0)

/-- `r` is the right insertion point of `x` in `a`: every element before
index `r` is `≤ x` and every element from index `r` on is `> x`.  On a
sorted list this says `r` is the first index strictly after all elements
`≤ x`. -/
def IsUB (a : List ℚ) (x : ℚ) (r : Nat) : Prop :=
  r ≤ a.length ∧ (∀ k, k < r → a.getD k 0 ≤ x) ∧
    (∀ k, r ≤ k → k < a.length → x < a.getD k 0)

lemma getD_mono_of_sorted (a : List ℚ) (hs : a.Pairwise (· ≤ ·)) :
    ∀ i j : Nat, i ≤ j → j < a.length → a.getD i 0 ≤ a.getD j 0 := by
  intro i j hij hj
  rcases Nat.eq_or_lt_of_le hij with rfl | h
  · exact le_refl _
  · have hi : i < a.length := Nat.lt_trans h hj
    have hr := List.pairwise_iff_get.mp hs ⟨i, hi⟩ ⟨j, hj⟩ h
    simpa [List.getD_eq_getElem?_getD, List.getElem?_eq_getElem hi,
      List.getElem?_eq_getElem hj] using hr

lemma bisectLeftAux_isLB (a : List ℚ) (x : ℚ) (hs : a.Pairwise (· ≤ ·)) :
    ∀ fuel lo hi : Nat, hi - lo ≤ fuel → lo ≤ hi → hi ≤ a.length →
      (∀ k, k < lo → a.getD k 0 < x) →
      (∀ k, hi ≤ k → k < a.length → x ≤ a.getD k 0) →
      IsLB a x (bisectLeftAux a x fuel lo hi) := by
  intro fuel
  induction fuel with
  | zero =>
      intro lo hi hfuel hlh hha hlow hhigh
      show IsLB a x lo
      exact ⟨by omega, hlow, fun k hk1 hk2 => hhigh k (by omega) hk2⟩
  | succ fuel ih =>
      intro lo hi hfuel hlh hha hlow hhigh
      rw [bisectLeftAux]
      by_cases h : lo < hi
      · rw [if_pos h]
        by_cases hc : a.getD ((lo + hi) / 2) 0 < x
        · rw [if_pos hc]
          refine ih ((lo + hi) / 2 + 1) hi (by omega) (by omega) hha ?_ hhigh
          intro k hk
          exact lt_of_le_of_lt (getD_mono_of_sorted a hs k ((lo + hi) / 2) (by omega) (by omega)) hc
        · rw [if_neg hc]
          refine ih lo ((lo + hi) / 2) (by omega) (by omega) (by omega) hlow ?_
          intro k hk1 hk2
          exact le_trans (not_lt.mp hc) (getD_mono_of_sorted a hs ((lo + hi) / 2) k hk1 hk2)
      · rw [if_neg h]
        exact ⟨by omega, hlow, fun k hk1 hk2 => hhigh k (by omega) hk2⟩

lemma bisectRightAux_isUB (a : List ℚ) (x : ℚ) (hs : a.Pairwise (· ≤ ·)) :
    ∀ fuel lo hi : Nat, hi - lo ≤ fuel → lo ≤ hi → hi ≤ a.length →
      (∀ k, k < lo → a.getD k 0 ≤ x) →
      (∀ k, hi ≤ k → k < a.length → x < a.getD k 0) →
      IsUB a x (bisectRightAux a x fuel lo hi) := by
  intro fuel
  induction fuel with
  | zero =>
      intro lo hi hfuel hlh hha hlow hhigh
      show IsUB a x lo
      exact ⟨by omega, hlow, fun k hk1 hk2 => hhigh k (by omega) hk2⟩
  | succ fuel ih =>
      intro lo hi hfuel hlh hha hlow hhigh
      rw [bisectRightAux]
      by_cases h : lo < hi
      · rw [if_pos h]
        by_cases hc : x < a.getD ((lo + hi) / 2) 0
        · rw [if_pos hc]
          refine ih lo ((lo + hi) / 2) (by omega) (by omega) (by omega) hlow ?_
          intro k hk1 hk2
          exact lt_of_lt_of_le hc (getD_mono_of_sorted a hs ((lo + hi) / 2) k hk1 hk2)
        · rw [if_neg hc]
          refine ih ((lo + hi) / 2 + 1) hi (by omega) (by omega) hha ?_ hhigh
          intro k hk
          exact le_trans (getD_mono_of_sorted a hs k ((lo + hi) / 2) (by omega) (by omega))
            (not_lt.mp hc)
      · rw [if_neg h]
        exact ⟨by omega, hlow, fun k hk1 hk2 => hhigh k (by omega) hk2⟩

lemma bisect_left_isLB (a : List ℚ) (x : ℚ) (hs : a.Pairwise (· ≤ ·)) :
    IsLB a x (bisect_left a x) :=
  bisectLeftAux_isLB a x hs a.length 0 a.length (by omega) (Nat.zero_le _) (Nat.le_refl _)
    (fun k hk => absurd hk (Nat.not_lt_zero k)) (fun k hk1 hk2 => absurd hk2 (by omega))

lemma bisect_right_isUB (a : List ℚ) (x : ℚ) (hs : a.Pairwise (· ≤ ·)) :
    IsUB a x (bisect_right a x) :=
  bisectRightAux_isUB a x hs a.length 0 a.length (by omega) (Nat.zero_le _) (Nat.le_refl _)
    (fun k hk => absurd hk (Nat.not_lt_zero k)) (fun k hk1 hk2 => absurd hk2 (by omega))

lemma isLB_unique {a : List ℚ} {x : ℚ} {r1 r2 : Nat}
    (h1 : IsLB a x r1) (h2 : IsLB a x r2) : r1 = r2 := by
  by_contra hne
  rcases Nat.lt_or_ge r1 r2 with h | h
  · have hl : r1 < a.length := Nat.lt_of_lt_of_le h h2.1
    exact absurd (h2.2.1 r1 h) (not_lt.mpr (h1.2.2 r1 (Nat.le_refl _) hl))
  · have h' : r2 < r1 := by omega
    have hl : r2 < a.length := Nat.lt_of_lt_of_le h' h1.1
    exact absurd (h1.2.1 r2 h') (not_lt.mpr (h2.2.2 r2 (Nat.le_refl _) hl))

lemma isUB_unique {a : List ℚ} {x : ℚ} {r1 r2 : Nat}
    (h1 : IsUB a x r1) (h2 : IsUB a x r2) : r1 = r2 := by
  by_contra hne
  rcases Nat.lt_or_ge r1 r2 with h | h
  · have hl : r1 < a.length := Nat.lt_of_lt_of_le h h2.1
    exact absurd (h2.2.1 r1 h) (not_le.mpr (h1.2.2 r1 (Nat.le_refl _) hl))
  · have h' : r2 < r1 := by omega
    have hl : r2 < a.length := Nat.lt_of_lt_of_le h' h1.1
    exact absurd (h1.2.1 r2 h') (not_le.mpr (h2.2.2 r2 (Nat.le_refl _) hl))

/-! ## Bridging the table and its time column -/

lemma times_length (tbl : FormantTable) : (tbl.map Row.time).length = tbl.length :=
  List.length_map _ _

lemma times_getD (tbl : FormantTable) (k : Nat) (r : Row) (h : tbl.get? k = some r) :
    (tbl.map Row.time).getD k 0 = r.time := by
  rw [List.getD_eq_get?, List.get?_map, h]
  rfl

lemma times_sorted (tbl : FormantTable) (hs : TimeSorted tbl) :
    (tbl.map Row.time).Pairwise (· ≤ ·) :=
  List.pairwise_map.mpr hs

lemma timeColumn_eq_some (tbl : FormantTable) (hne : tbl ≠ []) :
    timeColumn tbl = some (tbl.map Row.time) := by
  rw [timeColumn, if_neg]
  simpa [List.isEmpty_iff] using hne

/-! ## Claim theorems -/

/-- A concrete two-row table (times 0 and 1, one NaN formant) used as a
witness input. -/
def tblW : FormantTable :=
  [⟨0, .val 1, .val 2, .val 3⟩, ⟨1, .nan, .val 5, .val 6⟩]

/-- A concrete one-row table (time 0, no NaN) used as a witness input. -/
def tblV : FormantTable := [⟨0, .val 7, .val 8, .val 9⟩]

/-- C1: for a non-empty FormantTable with non-decreasing time column and a
target time not beyond the last row's time, `formants_at_time` returns the
formant columns `(f1, f2, f3)` of the row at the left-insertion index of
the target — the first row whose time is `≥ t` (so an exact match returns
that row) — and the time column is not part of the result (the result type
is the bare formant triple). -/
theorem point_query_returns_first_row_ge (tbl : FormantTable) (t : ℚ)
    (hs : TimeSorted tbl) (hne : tbl ≠ [])
    (hlast : ∃ r, tbl.getLast? = some r ∧ t ≤ r.time) :
    ∃ i r w, tbl.get? i = some r ∧ t ≤ r.time ∧
      (∀ j rj, j < i → tbl.get? j = some rj → rj.time < t) ∧
      formants_at_time tbl t = .ok ((r.f1, r.f2, r.f3), w) := by
  obtain ⟨rl, hrl, hrt⟩ := hlast
  have hsa : (tbl.map Row.time).Pairwise (· ≤ ·) := times_sorted tbl hs
  have hlb := bisect_left_isLB (tbl.map Row.time) t hsa
  have hlen : (tbl.map Row.time).length = tbl.length := times_length tbl
  have hlt : 0 < tbl.length := List.length_pos.mpr hne
  have hrl' : tbl.get? (tbl.length - 1) = some rl := by
    rw [← List.getLast?_eq_get?]
    exact hrl
  have hlast_time : (tbl.map Row.time).getD (tbl.length - 1) 0 = rl.time :=
    times_getD tbl _ rl hrl'
  have hilt : bisect_left (tbl.map Row.time) t < tbl.length := by
    rcases Nat.lt_or_ge (bisect_left (tbl.map Row.time) t) tbl.length with h | h
    · exact h
    · exfalso
      have h1 : tbl.length - 1 < bisect_left (tbl.map Row.time) t := by omega
      have h2 := hlb.2.1 (tbl.length - 1) h1
      rw [hlast_time] at h2
      exact absurd hrt (not_le.mpr h2)
  obtain ⟨r, hr⟩ : ∃ r, tbl.get? (bisect_left (tbl.map Row.time) t) = some r := by
    rw [List.get?_eq_get hilt]
    exact ⟨_, rfl⟩
  refine ⟨bisect_left (tbl.map Row.time) t, r, if rowHasNaN r then 1 else 0, hr, ?_, ?_, ?_⟩
  · have h3 := hlb.2.2 (bisect_left (tbl.map Row.time) t) (Nat.le_refl _) (by omega)
    rwa [times_getD tbl _ r hr] at h3
  · intro j rj hj hrj
    have h4 := hlb.2.1 j hj
    rwa [times_getD tbl j rj hrj] at h4
  · have hr2 : tbl[bisect_left (List.map Row.time tbl) t]? = some r := by
      rw [← List.get?_eq_getElem?]
      exact hr
    simp [formants_at_time, timeColumn_eq_some tbl hne, hr2]

/-- C1 witness: the theorem applied to the concrete table `tblW` at target
time 1, all hypotheses discharged by evaluation. -/
theorem point_query_returns_first_row_ge_witness :
    ∃ i r w, tblW.get? i = some r ∧ 1 ≤ r.time ∧
      (∀ j rj, j < i → tblW.get? j = some rj → rj.time < 1) ∧
      formants_at_time tblW 1 = .ok ((r.f1, r.f2, r.f3), w) :=
  point_query_returns_first_row_ge tblW 1 (by decide) (by decide)
    ⟨⟨1, .nan, .val 5, .val 6⟩, by decide, by decide⟩

/-- C3: with the data-model invariant that the time column is
non-decreasing, the point query fails with the range error exactly when
the table is empty or the target time is strictly greater than the last
row's time, and otherwise succeeds, returning the formants of one of the
table's rows. -/
theorem point_query_error_iff (tbl : FormantTable) (t : ℚ) (hs : TimeSorted tbl) :
    (formants_at_time tbl t = .error .rangeError ↔
      tbl = [] ∨ ∃ r, tbl.getLast? = some r ∧ r.time < t) ∧
    (∀ res w, formants_at_time tbl t = .ok (res, w) →
      ∃ r, r ∈ tbl ∧ res = (r.f1, r.f2, r.f3)) := by
  by_cases hne : tbl = []
  · subst hne
    refine ⟨⟨fun _ => Or.inl rfl, fun _ => rfl⟩, ?_⟩
    intro res w hok
    simp [formants_at_time, timeColumn] at hok
  · have hsa : (tbl.map Row.time).Pairwise (· ≤ ·) := times_sorted tbl hs
    have hlb := bisect_left_isLB (tbl.map Row.time) t hsa
    have hlen : (tbl.map Row.time).length = tbl.length := times_length tbl
    have hlt : 0 < tbl.length := List.length_pos.mpr hne
    obtain ⟨rl, hrl⟩ : ∃ rl, tbl.getLast? = some rl := by
      cases hgl : tbl.getLast? with
      | none => exact absurd (List.getLast?_eq_none_iff.mp hgl) hne
      | some rl => exact ⟨rl, rfl⟩
    have hrl' : tbl.get? (tbl.length - 1) = some rl := by
      rw [← List.getLast?_eq_get?]
      exact hrl
    have hlast_time : (tbl.map Row.time).getD (tbl.length - 1) 0 = rl.time :=
      times_getD tbl _ rl hrl'
    have hunf : formants_at_time tbl t =
        match tbl.get? (bisect_left (tbl.map Row.time) t) with
        | none => .error .rangeError
        | some r => .ok ((r.f1, r.f2, r.f3), if rowHasNaN r then 1 else 0) := by
      simp [formants_at_time, timeColumn_eq_some tbl hne]
    constructor
    · constructor
      · intro herr
        right
        refine ⟨rl, hrl, ?_⟩
        cases hgi : tbl.get? (bisect_left (tbl.map Row.time) t) with
        | none =>
            have hge : tbl.length ≤ bisect_left (tbl.map Row.time) t := by
              by_contra hcon
              rw [List.get?_eq_get (Nat.lt_of_not_le hcon)] at hgi
              exact Option.noConfusion hgi
            have h2 := hlb.2.1 (tbl.length - 1) (by omega)
            rwa [hlast_time] at h2
        | some r =>
            rw [hgi] at hunf
            rw [hunf] at herr
            exact absurd herr (fun hcon => Except.noConfusion hcon)
      · intro h
        rcases h with h | ⟨r, hr, hrt⟩
        · exact absurd h hne
        · have hreq : r = rl := by
            rw [hrl] at hr
            exact (Option.some.inj hr).symm
          subst hreq
          have hge : tbl.length ≤ bisect_left (tbl.map Row.time) t := by
            by_contra hcon
            have hil : bisect_left (tbl.map Row.time) t < tbl.length := Nat.lt_of_not_le hcon
            have h3 := hlb.2.2 (bisect_left (tbl.map Row.time) t) (Nat.le_refl _) (by omega)
            have h4 := getD_mono_of_sorted (tbl.map Row.time) hsa
              (bisect_left (tbl.map Row.time) t) (tbl.length - 1) (by omega) (by omega)
            rw [hlast_time] at h4
            exact absurd hrt (not_lt.mpr (le_trans h3 h4))
          have hgi : tbl.get? (bisect_left (tbl.map Row.time) t) = none := by
            rw [List.get?_eq_none]
            omega
          rw [hgi] at hunf
          exact hunf
    · intro res w hok
      cases hgi : tbl.get? (bisect_left (tbl.map Row.time) t) with
      | none =>
          rw [hgi] at hunf
          rw [hunf] at hok
          exact absurd hok (fun hcon => Except.noConfusion hcon)
      | some r =>
          rw [hgi] at hunf
          rw [hunf] at hok
          refine ⟨r, List.get?_mem hgi, ?_⟩
          have := Except.ok.inj hok
          exact (Prod.mk.injEq _ _ _ _ ▸ this).1.symm

/-- C3 witness: the theorem applied to the concrete table `tblW` at target
time 5 (beyond the last recorded time 1). -/
theorem point_query_error_iff_witness :
    (formants_at_time tblW 5 = .error .rangeError ↔
      tblW = [] ∨ ∃ r, tblW.getLast? = some r ∧ r.time < 5) ∧
    (∀ res w, formants_at_time tblW 5 = .ok (res, w) →
      ∃ r, r ∈ tblW ∧ res = (r.f1, r.f2, r.f3)) :=
  point_query_error_iff tblW 5 (by decide)

lemma formants_at_interval_eq (tbl : FormantTable) (s e : ℚ) (hne : tbl ≠ []) :
    formants_at_interval tbl s e =
      .ok ((tbl.take (bisect_right (tbl.map Row.time) e)).drop
            (bisect_left (tbl.map Row.time) s),
        if ((tbl.take (bisect_right (tbl.map Row.time) e)).drop
            (bisect_left (tbl.map Row.time) s)).any rowHasNaN then 1 else 0) := by
  simp [formants_at_interval, timeColumn_eq_some tbl hne]

/-- C2 (amended): for a NON-EMPTY FormantTable with non-decreasing time
column, the interval query returns the sub-table of rows from the left
insertion index of `start` (inclusive) to the right insertion index of
`end` (exclusive), all four columns kept; on the empty table it raises the
range error instead (see the counterexample). -/
theorem interval_query_slice (tbl : FormantTable) (s e : ℚ)
    (hs : TimeSorted tbl) (hne : tbl ≠ []) :
    ∃ i j w, IsLB (tbl.map Row.time) s i ∧ IsUB (tbl.map Row.time) e j ∧
      formants_at_interval tbl s e = .ok ((tbl.take j).drop i, w) :=
  ⟨bisect_left (tbl.map Row.time) s, bisect_right (tbl.map Row.time) e, _,
    bisect_left_isLB _ s (times_sorted tbl hs),
    bisect_right_isUB _ e (times_sorted tbl hs),
    formants_at_interval_eq tbl s e hne⟩

/-- C2 counterexample: the empty table has a (vacuously) non-decreasing
time column and both insertion indices are 0, so the claim as stated
demands the empty sub-table `.ok ([], 0)`; the code instead raises the
range error, because `formants_array[:, 0]` on the 0-row array (which
numpy builds with shape `(0,)`) raises IndexError inside the `try`
block. -/
theorem interval_query_empty_counterexample :
    formants_at_interval ([] : FormantTable) 0 1 = .error .rangeError ∧
    formants_at_interval ([] : FormantTable) 0 1 ≠
      .ok ((([] : FormantTable).take 0).drop 0, 0) := by
  decide

/-- C2 witness: the amended theorem applied to the concrete table `tblW`
with the interval [0, 1]. -/
theorem interval_query_slice_witness :
    ∃ i j w, IsLB (tblW.map Row.time) 0 i ∧ IsUB (tblW.map Row.time) 1 j ∧
      formants_at_interval tblW 0 1 = .ok ((tblW.take j).drop i, w) :=
  interval_query_slice tblW 0 1 (by decide) (by decide)

/-- C4 (amended): the interval query raises the range error exactly when
the table is empty; for a non-empty table (with the sortedness invariant)
an interval lying entirely beyond the last recorded time does NOT raise —
it returns the empty table with no warning. -/
theorem interval_query_error_iff_empty (tbl : FormantTable) (s e : ℚ) :
    ((∃ err, formants_at_interval tbl s e = .error err) ↔ tbl = []) ∧
    (TimeSorted tbl → ∀ r, tbl.getLast? = some r → r.time < s → r.time < e →
      formants_at_interval tbl s e = .ok ([], 0)) := by
  constructor
  · constructor
    · intro h
      obtain ⟨err, herr⟩ := h
      by_contra hne
      rw [formants_at_interval_eq tbl s e hne] at herr
      exact Except.noConfusion herr
    · intro h
      subst h
      exact ⟨.rangeError, rfl⟩
  · intro hs r hr hrs _hre
    have hne : tbl ≠ [] := by
      intro hcon
      rw [hcon] at hr
      exact Option.noConfusion hr
    have hsa := times_sorted tbl hs
    have hlen := times_length tbl
    have hlt : 0 < tbl.length := List.length_pos.mpr hne
    have hr' : tbl.get? (tbl.length - 1) = some r := by
      rw [← List.getLast?_eq_get?]
      exact hr
    have hlast_time := times_getD tbl _ r hr'
    have hlbfull : IsLB (tbl.map Row.time) s tbl.length := by
      refine ⟨by omega, ?_, fun k hk1 hk2 => absurd hk2 (by omega)⟩
      intro k hk
      calc (tbl.map Row.time).getD k 0
          ≤ (tbl.map Row.time).getD (tbl.length - 1) 0 :=
            getD_mono_of_sorted _ hsa k _ (by omega) (by omega)
        _ = r.time := hlast_time
        _ < s := hrs
    have hieq : bisect_left (tbl.map Row.time) s = tbl.length :=
      isLB_unique (bisect_left_isLB _ s hsa) hlbfull
    have hub := bisect_right_isUB (tbl.map Row.time) e hsa
    have hjle : bisect_right (tbl.map Row.time) e ≤ tbl.length := by
      have := hub.1
      omega
    have hslice : (tbl.take (bisect_right (tbl.map Row.time) e)).drop
        (bisect_left (tbl.map Row.time) s) = [] := by
      rw [hieq]
      apply List.drop_eq_nil_of_le
      rw [List.length_take]
      omega
    rw [formants_at_interval_eq tbl s e hne, hslice]
    rfl

/-- C4 counterexample: for the one-row table `tblV` (last recorded time 0)
the interval [1, 2] lies entirely beyond the last recorded time, yet the
call returns the empty table rather than raising the range error the claim
requires. -/
theorem interval_query_beyond_returns_empty :
    formants_at_interval tblV 1 2 = .ok ([], 0) ∧
    formants_at_interval tblV 1 2 ≠ .error .rangeError := by
  decide

/-- C4 witness: the amended theorem applied to the concrete table `tblW`
with the out-of-range interval [3, 4]. -/
theorem interval_query_error_iff_empty_witness :
    ((∃ err, formants_at_interval tblW 3 4 = .error err) ↔ tblW = []) ∧
    formants_at_interval tblW 3 4 = .ok ([], 0) :=
  ⟨(interval_query_error_iff_empty tblW 3 4).1,
    (interval_query_error_iff_empty tblW 3 4).2 (by decide)
      ⟨1, .nan, .val 5, .val 6⟩ (by decide) (by decide) (by decide)⟩

/-- C10: for a non-empty FormantTable with non-decreasing time column and
`start > end`, the interval query raises no error and returns the empty
table: the left insertion index of `start` is at least the right insertion
index of `end`, so the slice is empty (and the NaN check over the empty
slice emits no warning). -/
theorem interval_query_reversed_empty (tbl : FormantTable) (s e : ℚ)
    (hs : TimeSorted tbl) (hne : tbl ≠ []) (hlt : e < s) :
    formants_at_interval tbl s e = .ok ([], 0) := by
  have hsa := times_sorted tbl hs
  have hlb := bisect_left_isLB (tbl.map Row.time) s hsa
  have hub := bisect_right_isUB (tbl.map Row.time) e hsa
  have hlen := times_length tbl
  have hji : bisect_right (tbl.map Row.time) e ≤ bisect_left (tbl.map Row.time) s := by
    by_contra hcon
    have h1 : bisect_left (tbl.map Row.time) s < bisect_right (tbl.map Row.time) e :=
      Nat.lt_of_not_le hcon
    have h2 := hub.2.1 (bisect_left (tbl.map Row.time) s) h1
    have h3 := hlb.2.2 (bisect_left (tbl.map Row.time) s) (Nat.le_refl _)
      (by have := hub.1; omega)
    exact absurd (le_trans h3 h2) (not_le.mpr hlt)
  have hslice : (tbl.take (bisect_right (tbl.map Row.time) e)).drop
      (bisect_left (tbl.map Row.time) s) = [] := by
    apply List.drop_eq_nil_of_le
    rw [List.length_take]
    omega
  rw [formants_at_interval_eq tbl s e hne, hslice]
  rfl

/-- C10 witness: the theorem applied to the concrete table `tblW` with the
reversed interval `start = 1 > end = 0`. -/
theorem interval_query_reversed_empty_witness :
    formants_at_interval tblW 1 0 = .ok ([], 0) :=
  interval_query_reversed_empty tblW 1 0 (by decide) (by decide) (by decide)

lemma warn_count_cases (b : Bool) :
    (b = true → (if b then 1 else 0) = 1) ∧ (b = false → (if b then 1 else 0) = 0) := by
  cases b <;> simp

/-- C9: a point or interval query whose result contains at least one NaN
emits exactly one warning and still returns its result; a query whose
result contains no NaN emits no warning. -/
theorem query_nan_warning (tbl : FormantTable) (t s e : ℚ) :
    (∀ res w, formants_at_time tbl t = .ok (res, w) →
      ((res.1.isNaN || res.2.1.isNaN || res.2.2.isNaN) = true → w = 1) ∧
      ((res.1.isNaN || res.2.1.isNaN || res.2.2.isNaN) = false → w = 0)) ∧
    (∀ res w, formants_at_interval tbl s e = .ok (res, w) →
      (res.any rowHasNaN = true → w = 1) ∧ (res.any rowHasNaN = false → w = 0)) := by
  constructor
  · intro res w hok
    by_cases hne : tbl = []
    · subst hne
      simp [formants_at_time, timeColumn] at hok
    · simp only [formants_at_time, timeColumn_eq_some tbl hne] at hok
      cases hgi : tbl.get? (bisect_left (tbl.map Row.time) t) with
      | none =>
          rw [hgi] at hok
          exact Except.noConfusion hok
      | some r =>
          rw [hgi] at hok
          have hpair := Except.ok.inj hok
          have hres : res = (r.f1, r.f2, r.f3) := (Prod.mk.injEq _ _ _ _ ▸ hpair).1.symm
          have hw : w = if rowHasNaN r then 1 else 0 := (Prod.mk.injEq _ _ _ _ ▸ hpair).2.symm
          subst hres
          subst hw
          exact warn_count_cases (rowHasNaN r)
  · intro res w hok
    by_cases hne : tbl = []
    · subst hne
      simp [formants_at_interval, timeColumn] at hok
    · rw [formants_at_interval_eq tbl s e hne] at hok
      have hpair := Except.ok.inj hok
      have hres : res = (tbl.take (bisect_right (tbl.map Row.time) e)).drop
          (bisect_left (tbl.map Row.time) s) := (Prod.mk.injEq _ _ _ _ ▸ hpair).1.symm
      have hw : w = if ((tbl.take (bisect_right (tbl.map Row.time) e)).drop
          (bisect_left (tbl.map Row.time) s)).any rowHasNaN then 1 else 0 :=
        (Prod.mk.injEq _ _ _ _ ▸ hpair).2.symm
      subst hres
      subst hw
      exact warn_count_cases _

/-- C9 witness: the theorem applied to the point query on `tblW` at time 1
(whose result contains a NaN and one warning) and to the interval query on
`tblW` over the reversed interval (whose empty result warns zero times). -/
theorem query_nan_warning_witness :
    (((PyNum.nan.isNaN || (PyNum.val 5).isNaN || (PyNum.val 6).isNaN) = true → 1 = 1) ∧
      ((PyNum.nan.isNaN || (PyNum.val 5).isNaN || (PyNum.val 6).isNaN) = false → 1 = 0)) ∧
    ((([] : FormantTable).any rowHasNaN = true → 0 = 1) ∧
      (([] : FormantTable).any rowHasNaN = false → 0 = 0)) :=
  ⟨(query_nan_warning tblW 1 1 0).1 (PyNum.nan, PyNum.val 5, PyNum.val 6) 1 (by decide),
    (query_nan_warning tblW 1 1 0).2 [] 0 (by decide)⟩

/-- C5 (code bug): when the external process exits non-zero the intended
`PraatError` carrying the captured stderr text is never raised — the code
evaluates `stderr.readlines()` on the string already returned by
`communicate()`, which raises AttributeError before the `PraatError` is
constructed.  A zero exit code returns the captured stdout. -/
theorem run_praat_nonzero_attribute_error :
    run_praat 1 "stdout text" "stderr text" = .attributeError ∧
    run_praat 1 "stdout text" "stderr text" ≠ .praatError "stderr text" ∧
    run_praat 0 "stdout text" "stderr text" = .ok "stdout text" := by
  decide

/-- C6: with memoization, calling `file2formants` twice with the same key
returns the same table both times and does not invoke the external tool a
second time; without memoization every call invokes the tool once, leaves
the cache untouched, and (the oracle being deterministic) two calls return
equal tables. -/
theorem file2formants_memoization (oracle : CacheKey → String) (key : CacheKey)
    (s0 : ExtractState) :
    ((file2formants oracle key true ((file2formants oracle key true s0).2)).1
        = (file2formants oracle key true s0).1 ∧
      ((file2formants oracle key true ((file2formants oracle key true s0).2)).2).calls
        = ((file2formants oracle key true s0).2).calls) ∧
    ((file2formants oracle key false s0).2.calls = s0.calls + 1 ∧
      (file2formants oracle key false s0).2.cache = s0.cache ∧
      (file2formants oracle key false ((file2formants oracle key false s0).2)).1
        = (file2formants oracle key false s0).1) := by
  cases hl : s0.cache.lookup key with
  | some tbl =>
      exact ⟨by simp [file2formants, hl], by simp [file2formants]⟩
  | none =>
      exact ⟨by simp [file2formants, hl, List.lookup], by simp [file2formants]⟩

/-- C8: distinct cache keys never collide — extracting one key does not
change what a memoized extraction of a different key returns — and
`clear_formant_cache` replaces the cache by the empty mapping, after which
a memoized call for any key invokes the external tool again. -/
theorem cache_isolation_and_clear :
    (∀ (oracle : CacheKey → String) (k1 k2 : CacheKey) (s : ExtractState), k1 ≠ k2 →
      (file2formants oracle k2 true ((file2formants oracle k1 true s).2)).1
        = (file2formants oracle k2 true s).1) ∧
    (∀ s : ExtractState, (clear_formant_cache s).cache = []) ∧
    (∀ (oracle : CacheKey → String) (key : CacheKey) (s : ExtractState),
      ((file2formants oracle key true (clear_formant_cache s)).2).calls = s.calls + 1) := by
  refine ⟨?_, fun s => rfl, ?_⟩
  · intro oracle k1 k2 s hne
    have hbeq : (k2 == k1) = false := beq_eq_false_iff_ne.mpr (Ne.symm hne)
    cases hl1 : s.cache.lookup k1 with
    | some t1 => simp [file2formants, hl1]
    | none =>
        cases hl2 : s.cache.lookup k2 with
        | some t2 => simp [file2formants, hl1, hl2, List.lookup, hbeq]
        | none => simp [file2formants, hl1, hl2, List.lookup, hbeq]
  · intro oracle key s
    simp [file2formants, clear_formant_cache, List.lookup]

/-- A deterministic stand-in for the external tool, used by witnesses. -/
def oracleW : CacheKey → String := fun _ => "header\n0.0\t500\t1500\t2500\n"

/-- A concrete cache key used by witnesses. -/
def keyA : CacheKey := ("a.wav", 5500, mkRat 1 40, 50)

/-- A second concrete cache key, differing from `keyA` in the filename. -/
def keyB : CacheKey := ("b.wav", 5500, mkRat 1 40, 50)

/-- C8 witness: the theorem applied to the two distinct concrete keys on
the empty starting state. -/
theorem cache_isolation_and_clear_witness :
    (file2formants oracleW keyB true ((file2formants oracleW keyA true ⟨[], 0⟩).2)).1
      = (file2formants oracleW keyB true (⟨[], 0⟩ : ExtractState)).1 :=
  cache_isolation_and_clear.1 oracleW keyA keyB ⟨[], 0⟩ (by decide)

/-- C7 (amended): the parsing step behaves exactly as the specified
procedure (split on newlines, discard first and last record, split each
remaining record on tab, take the first 4 fields, convert with NaN
fallback) PROVIDED no remaining record ends in whitespace; in general the
code right-strips each record first, which can drop trailing empty fields
(see the counterexample). -/
theorem parse_matches_spec_without_trailing_ws (res : String)
    (hws : ∀ rec ∈ ((pySplit res '\n').drop 1).dropLast, pyRstrip rec = rec) :
    parseFormants res = specParseFormants res := by
  unfold parseFormants specParseFormants
  apply List.map_congr_left
  intro x hx
  rw [parseRecord, hws x hx]

/-- C7 counterexample: on captured stdout whose single data record ends in
a tab, the code right-strips the record before splitting on tab and yields
a 3-entry row, whereas the claimed procedure (no strip) yields 4 entries
with a trailing NaN for the empty fourth field. -/
theorem parse_trailing_tab_counterexample :
    parseFormants "h\n1\t2\t3\t\n" = [[PyNum.val 1, PyNum.val 2, PyNum.val 3]] ∧
    specParseFormants "h\n1\t2\t3\t\n" =
      [[PyNum.val 1, PyNum.val 2, PyNum.val 3, PyNum.nan]] ∧
    parseFormants "h\n1\t2\t3\t\n" ≠ specParseFormants "h\n1\t2\t3\t\n" := by
  decide

/-- C7 witness: the amended theorem applied to a concrete praat-shaped
stdout with no trailing whitespace in its data record. -/
theorem parse_matches_spec_witness :
    parseFormants "h\n0.5\t1\t2\t3\n" = specParseFormants "h\n0.5\t1\t2\t3\n" :=
  parse_matches_spec_without_trailing_ws "h\n0.5\t1\t2\t3\n" (by decide)
